import Mathlib

/-!
Verification of the Azure DevOps parent-hierarchy resolver of
remote-mcp-server-authless.

The repository file src/tools/azure-devops.ts contains two evolutions of the
same module:
* the explicit-parameter variant (tools take the PAT as a tool argument,
  registered via server.tool) — embedded here with suffix `1`;
* the header-based variant (credentials read from inbound request headers,
  registered via server.registerTool) — embedded here with suffix `2`.

The heart of both is the recursive method findParentFeature(workItemId,
visited, depth).  The JS `visited` argument is a mutable Set shared across
sibling recursive calls, so the embedding threads it explicitly: each call
returns the updated visited list together with its outcome.  In addition the
embedding records the ordered trace of work-item ids actually fetched from
the backend (`fetched`), which is the observable the spec's invariants talk
about (no refetch, bounded work, auth propagation).

JS exceptions are embedded as the `Outcome.fatalAuth` constructor: in the
explicit-parameter variant a 401 response raises an Error whose message
contains "PAT" / a validation-failure marker, and every catch block up the
recursion rethrows exactly those errors while converting every other failure
into a branch-local null.  The header-based variant's catch converts every
failure into null, so it can never produce `fatalAuth` (proved below).

Recursion is embedded with an explicit fuel parameter; the theorem for the
termination claim shows the result is independent of the fuel once it is at
least MAX_RECURSION_DEPTH + 2, i.e. the depth guard alone bounds the
recursion for every backend graph.
-/

/-- Constant MAX_RECURSION_DEPTH from src/tools/azure-devops.ts (both variants). -/
def MAX_RECURSION_DEPTH : Nat := 3

/-- Constant MAX_VISITED_ITEMS from src/tools/azure-devops.ts (both variants). -/
def MAX_VISITED_ITEMS : Nat := 10

/-- Constant MAX_PARENT_RELATIONS from src/tools/azure-devops.ts (used only by
the explicit-parameter variant's loop). -/
def MAX_PARENT_RELATIONS : Nat := 3

/-- A work-item relation: the `relations` array entries carry a link kind and
a URL (interface WorkItem in azure-devops.ts). -/
structure Relation where
  rel : String
  url : String
deriving DecidableEq, Repr

/-- The fields of a work item that the resolver inspects: its id, its
System.WorkItemType field, and its relations array (absent relations are
embedded as the empty list, matching the `if (workItem.relations)` guards). -/
structure WorkItem where
  id : Nat
  workItemType : String
  relations : List Relation
deriving DecidableEq, Repr

/-- Outcome of one backend fetch of a work item, classifying the HTTP
response statuses the source branches on. -/
inductive FetchResult where
  /-- 2xx response carrying the work item. -/
  | ok (item : WorkItem)
  /-- HTTP 404: the item does not exist or is not accessible. -/
  | notFound
  /-- HTTP 401: credential rejected or expired; the explicit-parameter
  variant raises an Error mentioning the PAT here. -/
  | authError
  /-- HTTP 429: rate limited. -/
  | rateLimited
  /-- Any other non-2xx status (generic Azure DevOps API error). -/
  | remoteError
deriving DecidableEq, Repr

/-- The remote graph: what the backend answers for each work-item id. -/
def Backend : Type := Nat → FetchResult

/-- Result of a resolver call as seen by its caller: the parent
Feature/Epic, null (no ancestor / branch gave up), or a propagated
authentication exception. -/
inductive Outcome where
  | found (item : WorkItem)
  | notFound
  | fatalAuth
deriving DecidableEq, Repr

/-- Full observable result of a resolver call: outcome, the threaded visited
set (a duplicate-free list, newest first, mirroring the mutated JS Set), and
the ordered trace of ids fetched from the backend during the call. -/
structure WalkResult where
  outcome : Outcome
  visited : List Nat
  fetched : List Nat
deriving DecidableEq, Repr

/-- Method isValidWorkItemId: integer, positive, at most 999999. -/
def isValidWorkItemId (id : Nat) : Bool :=
  0 < id && id ≤ 999999

/-- The parent link kind the loops filter on. -/
def hierarchyReverse : String := "System.LinkTypes.Hierarchy-Reverse"

/-- Value of a digit string, as parseInt computes it on a digits-only match. -/
def digitsToNat (ds : List Char) : Nat :=
  ds.foldl (fun n c => n * 10 + (c.toNat - 48)) 0

/-- Embedding of `relation.url.match(/workItems\/(\d+)$/)` followed by
parseInt on the capture: the URL must end in one or more digits immediately
preceded by the text "workItems/"; the digit run matched is the maximal
digit suffix (anything longer would have to extend past the slash).
Returns the parsed parent id, or none when the regex does not match. -/
def parseParentId (url : String) : Option Nat :=
  let cs := url.data
  let ds := (cs.reverse.takeWhile (fun c => c.isDigit)).reverse
  if ds.isEmpty then none
  else
    let stem := cs.take (cs.length - ds.length)
    if ("workItems/".data).isSuffixOf stem then some (digitsToNat ds)
    else none

/-- Loop over parent-relation candidates in the explicit-parameter variant
(for-loop at azure-devops.ts lines 317-347).  The caller passes the
candidates already restricted to the first MAX_PARENT_RELATIONS
Hierarchy-Reverse relations (the loop's parentCount/break bookkeeping).
For each one: an unparseable URL or an invalid parent id is skipped with
`continue`; otherwise the recursion `recur` runs on the threaded visited
set; a found Feature/Epic or a propagating auth exception returns
immediately, a null moves on to the next candidate. -/
def tryParents1 (recur : Nat → List Nat → WalkResult) :
    List Relation → List Nat → WalkResult
  | [], visited => ⟨.notFound, visited, []⟩
  | r :: rest, visited =>
    match parseParentId r.url with
    | none => tryParents1 recur rest visited
    | some pid =>
      if isValidWorkItemId pid then
        let res := recur pid visited
        match res.outcome with
        | .found item => ⟨.found item, res.visited, res.fetched⟩
        | .fatalAuth => ⟨.fatalAuth, res.visited, res.fetched⟩
        | .notFound =>
          let res2 := tryParents1 recur rest res.visited
          ⟨res2.outcome, res2.visited, res.fetched ++ res2.fetched⟩
      else tryParents1 recur rest visited

/-- Method findParentFeature of the explicit-parameter variant
(azure-devops.ts lines 244-364), with explicit fuel.  Guard order as in the
source: visited membership, depth bound, visited-size bound, id validity;
then the id is added to visited and the item is fetched with relations.
A 404 or 429 response, and any generic API error (whose thrown message does
not mention the PAT and is therefore swallowed by the method's own catch
block), give null for this branch; a 401 raises the PAT error, rethrown by
every catch on the way out.  A Feature/Epic is returned at once — including
when it is the start item itself.  Otherwise the first
MAX_PARENT_RELATIONS Hierarchy-Reverse relations are tried in order. -/
def findParentFeature1 (be : Backend) :
    Nat → Nat → List Nat → Nat → WalkResult
  | 0, _, visited, _ => ⟨.notFound, visited, []⟩
  | fuel + 1, workItemId, visited, depth =>
    if visited.contains workItemId then ⟨.notFound, visited, []⟩
    else if depth > MAX_RECURSION_DEPTH then ⟨.notFound, visited, []⟩
    else if visited.length > MAX_VISITED_ITEMS then ⟨.notFound, visited, []⟩
    else if ¬ isValidWorkItemId workItemId then ⟨.notFound, visited, []⟩
    else
      let visited1 := workItemId :: visited
      match be workItemId with
      | .notFound => ⟨.notFound, visited1, [workItemId]⟩
      | .authError => ⟨.fatalAuth, visited1, [workItemId]⟩
      | .rateLimited => ⟨.notFound, visited1, [workItemId]⟩
      | .remoteError => ⟨.notFound, visited1, [workItemId]⟩
      | .ok item =>
        if item.workItemType = "Feature" ∨ item.workItemType = "Epic" then
          ⟨.found item, visited1, [workItemId]⟩
        else
          let cands := (item.relations.filter
            (fun r => r.rel = hierarchyReverse)).take MAX_PARENT_RELATIONS
          let lr := tryParents1
            (fun pid vis => findParentFeature1 be fuel pid vis (depth + 1))
            cands visited1
          ⟨lr.outcome, lr.visited, workItemId :: lr.fetched⟩

/-- Loop over parent-relation candidates in the header-based variant
(azure-devops.ts lines 967-978): identical traversal but with no
parentCount cap and no pre-recursion validity check on the parsed id (the
recursive call's own guard rejects invalid ids). -/
def tryParents2 (recur : Nat → List Nat → WalkResult) :
    List Relation → List Nat → WalkResult
  | [], visited => ⟨.notFound, visited, []⟩
  | r :: rest, visited =>
    match parseParentId r.url with
    | none => tryParents2 recur rest visited
    | some pid =>
      let res := recur pid visited
      match res.outcome with
      | .found item => ⟨.found item, res.visited, res.fetched⟩
      | .fatalAuth => ⟨.fatalAuth, res.visited, res.fetched⟩
      | .notFound =>
        let res2 := tryParents2 recur rest res.visited
        ⟨res2.outcome, res2.visited, res.fetched ++ res2.fetched⟩

/-- Method findParentFeature of the header-based variant (azure-devops.ts
lines 942-984), with explicit fuel.  The four guards are combined in a
single disjunction; every non-2xx response — 401 included — returns null
(`if (!response.ok) return null`), and the catch block returns null for
every raised error, so no failure ever propagates out of this variant. -/
def findParentFeature2 (be : Backend) :
    Nat → Nat → List Nat → Nat → WalkResult
  | 0, _, visited, _ => ⟨.notFound, visited, []⟩
  | fuel + 1, workItemId, visited, depth =>
    if visited.contains workItemId ∨ depth > MAX_RECURSION_DEPTH ∨
        visited.length > MAX_VISITED_ITEMS ∨ ¬ isValidWorkItemId workItemId then
      ⟨.notFound, visited, []⟩
    else
      let visited1 := workItemId :: visited
      match be workItemId with
      | .ok item =>
        if item.workItemType = "Feature" ∨ item.workItemType = "Epic" then
          ⟨.found item, visited1, [workItemId]⟩
        else
          let cands := item.relations.filter (fun r => r.rel = hierarchyReverse)
          let lr := tryParents2
            (fun pid vis => findParentFeature2 be fuel pid vis (depth + 1))
            cands visited1
          ⟨lr.outcome, lr.visited, workItemId :: lr.fetched⟩
      | _ => ⟨.notFound, visited1, [workItemId]⟩

/-- Fuel sufficient for the depth guard: MAX_RECURSION_DEPTH + 2. -/
def enoughFuel : Nat := MAX_RECURSION_DEPTH + 2

/-- A full resolver invocation in the explicit-parameter variant:
findParentFeature(workItemId) with a fresh empty visited set and depth 0. -/
def resolveRootAncestor1 (be : Backend) (startId : Nat) : WalkResult :=
  findParentFeature1 be enoughFuel startId [] 0

/-- A full resolver invocation in the header-based variant. -/
def resolveRootAncestor2 (be : Backend) (startId : Nat) : WalkResult :=
  findParentFeature2 be enoughFuel startId [] 0

/-- Outcome of the identity check validateUser(): either the profile fetch
succeeded or it raised (incomplete config, 401, 403, or other non-2xx). -/
inductive IdentityOutcome where
  | ok
  | authFailed
deriving DecidableEq, Repr

/-- One network action of a tool invocation: the identity/profile fetch
performed by validateUser, or a work-item fetch by id. -/
inductive ApiCall where
  | identityFetch
  | workItemFetch (id : Nat)
deriving DecidableEq, Repr

/-- Network trace of the explicit-parameter variant's get_work_item handler
(azure-devops.ts lines 551-592): validateUser runs first; if it raises, the
catch returns the error and no work-item fetch happens; otherwise
service.getWorkItem performs exactly one work-item fetch. -/
def getWorkItemTool1 (ident : IdentityOutcome) (wid : Nat) : List ApiCall :=
  match ident with
  | .authFailed => [.identityFetch]
  | .ok => [.identityFetch, .workItemFetch wid]

/-- Network trace of the explicit-parameter variant's find_parent_feature
handler (lines 620-696): validateUser first; on success the work-item id is
range-checked without any fetch, then findParentFeature runs. -/
def findParentFeatureTool1 (ident : IdentityOutcome) (be : Backend)
    (wid : Nat) : List ApiCall :=
  match ident with
  | .authFailed => [.identityFetch]
  | .ok =>
    if isValidWorkItemId wid then
      .identityFetch :: (resolveRootAncestor1 be wid).fetched.map (.workItemFetch ·)
    else [.identityFetch]

/-- Network trace of the header-based variant's get_work_item handler
(azure-devops.ts lines 1107-1139): the config is read from headers and the
work item is fetched immediately — validateUser is never invoked.  When the
first fetch succeeds, findParentFeature is run as well (fetching the same id
a second time); when it raises, the catch returns the error. -/
def getWorkItemTool2 (be : Backend) (wid : Nat) : List ApiCall :=
  .workItemFetch wid ::
    (match be wid with
     | .ok _ => (resolveRootAncestor2 be wid).fetched.map (.workItemFetch ·)
     | _ => [])

/-- Network trace of the header-based variant's find_parent_feature handler
(lines 1163-1176): findParentFeature runs directly, with no identity
validation of any kind. -/
def findParentFeatureTool2 (be : Backend) (wid : Nat) : List ApiCall :=
  (resolveRootAncestor2 be wid).fetched.map (.workItemFetch ·)

/-- Embedding of the header echo in the worker's fetch handler
(src/index.ts lines 49-53): every inbound request header is written to the
log as "  key: value", with the raw value in cleartext. -/
def logRequestHeaders (headers : List (String × String)) : List String :=
  headers.map (fun kv => "  " ++ kv.1 ++ ": " ++ kv.2)

/-- Keep only the first MAX_PARENT_RELATIONS parent-kind relations of an
item — the portion of the relation list the explicit-parameter variant's
loop can ever examine. -/
def truncParents (item : WorkItem) : WorkItem :=
  { item with relations := (item.relations.filter (fun r => r.rel = hierarchyReverse)).take MAX_PARENT_RELATIONS }

/-- Apply truncParents to every item a backend serves. -/
def truncBackend (be : Backend) : Backend := fun id =>
  match be id with
  | .ok item => .ok (truncParents item)
  | r => r

/-- Image of an outcome under truncParents. -/
def truncOutcome : Outcome → Outcome
  | .found item => .found (truncParents item)
  | o => o

/-- A parent relation whose URL is in the canonical ".../workItems/<n>" shape. -/
def parRel (n : Nat) : Relation := ⟨hierarchyReverse, "workItems/" ++ toString n⟩

/-- Backend where every id is missing. -/
def beAllMissing : Backend := fun _ => .notFound

/-- Backend with a two-node parent cycle: item 1 is a Task whose parent link
points to 2, and item 2 is a Task whose parent link points back to 1. -/
def beCycle : Backend := fun id =>
  if id = 1 then .ok ⟨1, "Task", [parRel 2]⟩
  else if id = 2 then .ok ⟨2, "Task", [parRel 1]⟩
  else .notFound

/-- Backend where the start item 100 is itself a Feature. -/
def beSelfFeature : Backend := fun id =>
  if id = 100 then .ok ⟨100, "Feature", []⟩ else .notFound

/-- Backend where the walk from 1 reaches 2, whose fetch is rejected with a
401 authentication failure. -/
def beAuthMidWalk : Backend := fun id =>
  if id = 1 then .ok ⟨1, "Task", [parRel 2]⟩
  else if id = 2 then .authError
  else .notFound

/-- Backend where item 1 has a dangling first parent link (2 does not
exist) and a second parent link to the Feature 3. -/
def beDangling : Backend := fun id =>
  if id = 1 then .ok ⟨1, "Task", [parRel 2, parRel 3]⟩
  else if id = 3 then .ok ⟨3, "Feature", []⟩
  else .notFound

/-- Backend realising a wide graph: 1 has parents 2, 3, 4; those have
parents 5-7, 8-10 and 11-13 respectively; all items are Tasks, so the walk
gives up only on its size budget.  Expanding it visits eleven distinct
items before the visited-size guard fires. -/
def beWide : Backend := fun id =>
  if id = 1 then .ok ⟨1, "Task", [parRel 2, parRel 3, parRel 4]⟩
  else if id = 2 then .ok ⟨2, "Task", [parRel 5, parRel 6, parRel 7]⟩
  else if id = 3 then .ok ⟨3, "Task", [parRel 8, parRel 9, parRel 10]⟩
  else if id = 4 then .ok ⟨4, "Task", [parRel 11, parRel 12, parRel 13]⟩
  else if 5 ≤ id ∧ id ≤ 13 then .ok ⟨id, "Task", []⟩
  else .notFound

/-- Backend where item 1 carries four parent links; the first three are
dangling and only the fourth leads to a Feature. -/
def beFourCands : Backend := fun id =>
  if id = 1 then .ok ⟨1, "Task", [parRel 21, parRel 22, parRel 23, parRel 24]⟩
  else if id = 24 then .ok ⟨24, "Feature", []⟩
  else .notFound

/-- Bookkeeping invariant tying a resolver call's result to the visited set
it started from: the final visited set is exactly the fetched ids (newest
first) on top of the initial one — so an id is added the moment its fetch
begins and the set only grows —, every fetched id was not yet visited, no id
is fetched twice, and the visited set never grows beyond
MAX_VISITED_ITEMS + 1 entries (the size guard is strict, so one expansion
beyond the constant still happens). -/
structure CoreInv (V : List Nat) (res : WalkResult) : Prop where
  visited_eq : res.visited = res.fetched.reverse ++ V
  fetched_fresh : ∀ x ∈ res.fetched, x ∉ V
  fetched_nodup : res.fetched.Nodup
  visited_bound : V.length ≤ MAX_VISITED_ITEMS + 1 →
    res.visited.length ≤ MAX_VISITED_ITEMS + 1

/-- Authentication-propagation invariant of the explicit-parameter variant:
unless the call ended in the propagated auth exception, no fetch it made was
answered 401; and when it did, the 401 fetch was the last fetch made and
every earlier fetch was not a 401. -/
structure AuthInv (be : Backend) (res : WalkResult) : Prop where
  no_auth : res.outcome ≠ .fatalAuth → ∀ x ∈ res.fetched, be x ≠ .authError
  fatal_last : res.outcome = .fatalAuth →
    ∃ pre x, res.fetched = pre ++ [x] ∧ be x = .authError ∧
      ∀ y ∈ pre, be y ≠ .authError

theorem coreInv_triv (V : List Nat) (o : Outcome) : CoreInv V ⟨o, V, []⟩ := by
  refine ⟨by simp, by simp, by simp, fun h => h⟩

theorem coreInv_single (V : List Nat) (o : Outcome) (id : Nat)
    (hmem : id ∉ V) (hlen : V.length ≤ MAX_VISITED_ITEMS) :
    CoreInv V ⟨o, id :: V, [id]⟩ := by
  refine ⟨by simp, by simpa using hmem, by simp, fun _ => ?_⟩
  simp only [List.length_cons]
  omega

theorem coreInv_cons (V : List Nat) (o : Outcome) (id : Nat)
    (lr : WalkResult) (hmem : id ∉ V) (hlen : V.length ≤ MAX_VISITED_ITEMS)
    (hlr : CoreInv (id :: V) lr) :
    CoreInv V ⟨o, lr.visited, id :: lr.fetched⟩ := by
  refine ⟨?_, ?_, ?_, ?_⟩
  · simp [hlr.visited_eq, List.append_assoc]
  · intro x hx
    rcases List.mem_cons.mp hx with rfl | hx
    · exact hmem
    · intro hxV
      exact hlr.fetched_fresh x hx (List.mem_cons_of_mem _ hxV)
  · refine List.Nodup.cons ?_ hlr.fetched_nodup
    intro hid
    exact hlr.fetched_fresh id hid (List.mem_cons_self _ _)
  · intro _
    exact hlr.visited_bound (by simp only [List.length_cons]; omega)

theorem coreInv_comp (V : List Nat) (o : Outcome) (r1 r2 : WalkResult)
    (h1 : CoreInv V r1) (h2 : CoreInv r1.visited r2) :
    CoreInv V ⟨o, r2.visited, r1.fetched ++ r2.fetched⟩ := by
  refine ⟨?_, ?_, ?_, ?_⟩
  · simp [h2.visited_eq, h1.visited_eq, List.append_assoc]
  · intro x hx
    rcases List.mem_append.mp hx with hx | hx
    · exact h1.fetched_fresh x hx
    · intro hxV
      refine h2.fetched_fresh x hx ?_
      rw [h1.visited_eq]
      exact List.mem_append_right _ hxV
  · refine List.Nodup.append h1.fetched_nodup h2.fetched_nodup ?_
    intro x hx1 hx2
    refine h2.fetched_fresh x hx2 ?_
    rw [h1.visited_eq]
    exact List.mem_append_left _ (List.mem_reverse.mpr hx1)
  · intro h
    exact h2.visited_bound (h1.visited_bound h)

theorem tryParents1_inv (be : Backend) (recur : Nat → List Nat → WalkResult)
    (h : ∀ pid W, CoreInv W (recur pid W) ∧ AuthInv be (recur pid W)) :
    ∀ (cands : List Relation) (V : List Nat),
      CoreInv V (tryParents1 recur cands V) ∧
      AuthInv be (tryParents1 recur cands V) := by
  intro cands
  induction cands with
  | nil =>
    intro V
    refine ⟨coreInv_triv V _, ⟨fun _ => by simp [tryParents1], fun hfa => ?_⟩⟩
    simp [tryParents1] at hfa
  | cons r rest ih =>
    intro V
    cases hp : parseParentId r.url with
    | none => simpa [tryParents1, hp] using ih V
    | some pid =>
      by_cases hv : isValidWorkItemId pid = true
      · rcases hr : recur pid V with ⟨o, vis, fs⟩
        have hrec := h pid V
        rw [hr] at hrec
        cases o with
        | found item =>
          simpa [tryParents1, hp, hv, hr] using hrec
        | fatalAuth =>
          simpa [tryParents1, hp, hv, hr] using hrec
        | notFound =>
          have hres2 := ih vis
          have hcore : CoreInv V (tryParents1 recur (r :: rest) V) := by
            simp only [tryParents1, hp, hv, if_true, hr]
            exact coreInv_comp V _ ⟨.notFound, vis, fs⟩ _ hrec.1 hres2.1
          refine ⟨hcore, ?_, ?_⟩
          · intro hnf x hx
            simp only [tryParents1, hp, hv, if_true, hr] at hx hnf
            rcases List.mem_append.mp hx with hx | hx
            · exact hrec.2.no_auth (by simp) x hx
            · exact hres2.2.no_auth hnf x hx
          · intro hfa
            simp only [tryParents1, hp, hv, if_true, hr] at hfa ⊢
            rcases hres2.2.fatal_last hfa with ⟨pre, x, hsplit, hax, hpre⟩
            refine ⟨fs ++ pre, x, by rw [hsplit, List.append_assoc], hax, ?_⟩
            intro y hy
            rcases List.mem_append.mp hy with hy | hy
            · exact hrec.2.no_auth (by simp) y hy
            · exact hpre y hy
      · simpa [tryParents1, hp, hv] using ih V


theorem inv_triv (be : Backend) (V : List Nat) (o : Outcome)
    (ho : o ≠ Outcome.fatalAuth) : CoreInv V ⟨o, V, []⟩ ∧ AuthInv be ⟨o, V, []⟩ :=
  ⟨coreInv_triv V o, ⟨fun _ x hx => absurd hx (List.not_mem_nil x),
    fun hfa => absurd hfa ho⟩⟩

theorem inv_single (be : Backend) (V : List Nat) (o : Outcome) (id : Nat)
    (hmem : id ∉ V) (hlen : V.length ≤ MAX_VISITED_ITEMS)
    (ho : o ≠ Outcome.fatalAuth) (hba : be id ≠ FetchResult.authError) :
    CoreInv V ⟨o, id :: V, [id]⟩ ∧ AuthInv be ⟨o, id :: V, [id]⟩ :=
  ⟨coreInv_single V o id hmem hlen,
    ⟨fun _ x hx => by simp at hx; subst hx; exact hba,
     fun hfa => absurd hfa ho⟩⟩

theorem inv_single_auth (be : Backend) (V : List Nat) (id : Nat)
    (hmem : id ∉ V) (hlen : V.length ≤ MAX_VISITED_ITEMS)
    (hba : be id = FetchResult.authError) :
    CoreInv V ⟨.fatalAuth, id :: V, [id]⟩ ∧ AuthInv be ⟨.fatalAuth, id :: V, [id]⟩ :=
  ⟨coreInv_single V _ id hmem hlen,
    ⟨fun hnf => absurd rfl hnf, fun _ => ⟨[], id, by simp, hba, by simp⟩⟩⟩

theorem findParentFeature1_inv (be : Backend) :
    ∀ (fuel id : Nat) (V : List Nat) (depth : Nat),
      CoreInv V (findParentFeature1 be fuel id V depth) ∧
      AuthInv be (findParentFeature1 be fuel id V depth) := by
  intro fuel
  induction fuel with
  | zero =>
    intro id V depth
    exact inv_triv be V _ (by simp)
  | succ m ih =>
    intro id V depth
    by_cases h1 : id ∈ V
    · rw [show findParentFeature1 be (m + 1) id V depth = ⟨.notFound, V, []⟩ by
        simp [findParentFeature1, h1]]
      exact inv_triv be V _ (by simp)
    by_cases h2 : depth > MAX_RECURSION_DEPTH
    · rw [show findParentFeature1 be (m + 1) id V depth = ⟨.notFound, V, []⟩ by
        simp [findParentFeature1, h1, h2]]
      exact inv_triv be V _ (by simp)
    by_cases h3 : V.length > MAX_VISITED_ITEMS
    · rw [show findParentFeature1 be (m + 1) id V depth = ⟨.notFound, V, []⟩ by
        simp [findParentFeature1, h1, h2, h3]]
      exact inv_triv be V _ (by simp)
    by_cases h4 : isValidWorkItemId id = true
    case neg =>
      rw [show findParentFeature1 be (m + 1) id V depth = ⟨.notFound, V, []⟩ by
        simp [findParentFeature1, h1, h2, h3, h4]]
      exact inv_triv be V _ (by simp)
    case pos =>
      have hlen : V.length ≤ MAX_VISITED_ITEMS := by omega
      cases hbe : be id with
      | notFound =>
        rw [show findParentFeature1 be (m + 1) id V depth = ⟨.notFound, id :: V, [id]⟩ by
          simp [findParentFeature1, h1, h2, h3, h4, hbe]]
        exact inv_single be V _ id h1 hlen (by simp) (by simp [hbe])
      | rateLimited =>
        rw [show findParentFeature1 be (m + 1) id V depth = ⟨.notFound, id :: V, [id]⟩ by
          simp [findParentFeature1, h1, h2, h3, h4, hbe]]
        exact inv_single be V _ id h1 hlen (by simp) (by simp [hbe])
      | remoteError =>
        rw [show findParentFeature1 be (m + 1) id V depth = ⟨.notFound, id :: V, [id]⟩ by
          simp [findParentFeature1, h1, h2, h3, h4, hbe]]
        exact inv_single be V _ id h1 hlen (by simp) (by simp [hbe])
      | authError =>
        rw [show findParentFeature1 be (m + 1) id V depth = ⟨.fatalAuth, id :: V, [id]⟩ by
          simp [findParentFeature1, h1, h2, h3, h4, hbe]]
        exact inv_single_auth be V id h1 hlen hbe
      | ok item =>
        by_cases hft : item.workItemType = "Feature" ∨ item.workItemType = "Epic"
        · rw [show findParentFeature1 be (m + 1) id V depth = ⟨.found item, id :: V, [id]⟩ by
            simp [findParentFeature1, h1, h2, h3, h4, hbe, hft]]
          exact inv_single be V _ id h1 hlen (by simp) (by simp [hbe])
        · have hstep : findParentFeature1 be (m + 1) id V depth =
              (fun lr => (⟨lr.outcome, lr.visited, id :: lr.fetched⟩ : WalkResult))
                (tryParents1
                  (fun pid vis => findParentFeature1 be m pid vis (depth + 1))
                  ((item.relations.filter (fun r => r.rel = hierarchyReverse)).take
                    MAX_PARENT_RELATIONS) (id :: V)) := by
            simp [findParentFeature1, h1, h2, h3, h4, hbe, hft]
          rw [hstep]
          have hloop := tryParents1_inv be
            (fun pid vis => findParentFeature1 be m pid vis (depth + 1))
            (fun pid W => ih pid W (depth + 1))
            ((item.relations.filter (fun r => r.rel = hierarchyReverse)).take
              MAX_PARENT_RELATIONS) (id :: V)
          refine ⟨coreInv_cons V _ id _ h1 hlen hloop.1, ?_, ?_⟩
          · intro hnf x hx
            rcases List.mem_cons.mp hx with rfl | hx
            · simp [hbe]
            · exact hloop.2.no_auth hnf x hx
          · intro hfa
            rcases hloop.2.fatal_last hfa with ⟨pre, x, hsplit, hax, hpre⟩
            refine ⟨id :: pre, x, by simp [hsplit], hax, ?_⟩
            intro y hy
            rcases List.mem_cons.mp hy with rfl | hy
            · simp [hbe]
            · exact hpre y hy

theorem tryParents2_inv (recur : Nat → List Nat → WalkResult)
    (h : ∀ pid W, CoreInv W (recur pid W) ∧
      (recur pid W).outcome ≠ Outcome.fatalAuth) :
    ∀ (cands : List Relation) (V : List Nat),
      CoreInv V (tryParents2 recur cands V) ∧
      (tryParents2 recur cands V).outcome ≠ Outcome.fatalAuth := by
  intro cands
  induction cands with
  | nil =>
    intro V
    exact ⟨coreInv_triv V _, by simp [tryParents2]⟩
  | cons r rest ih =>
    intro V
    cases hp : parseParentId r.url with
    | none => simpa [tryParents2, hp] using ih V
    | some pid =>
      rcases hr : recur pid V with ⟨o, vis, fs⟩
      have hrec := h pid V
      rw [hr] at hrec
      cases o with
      | found item => simpa [tryParents2, hp, hr] using hrec
      | fatalAuth => exact absurd rfl hrec.2
      | notFound =>
        have hres2 := ih vis
        constructor
        · simp only [tryParents2, hp, hr]
          exact coreInv_comp V _ ⟨.notFound, vis, fs⟩ _ hrec.1 hres2.1
        · simp only [tryParents2, hp, hr]
          exact hres2.2

theorem findParentFeature2_inv (be : Backend) :
    ∀ (fuel id : Nat) (V : List Nat) (depth : Nat),
      CoreInv V (findParentFeature2 be fuel id V depth) ∧
      (findParentFeature2 be fuel id V depth).outcome ≠ Outcome.fatalAuth := by
  intro fuel
  induction fuel with
  | zero =>
    intro id V depth
    exact ⟨coreInv_triv V _, by simp [findParentFeature2]⟩
  | succ m ih =>
    intro id V depth
    by_cases hg : id ∈ V ∨ depth > MAX_RECURSION_DEPTH ∨
        V.length > MAX_VISITED_ITEMS ∨ ¬ isValidWorkItemId id = true
    · rw [show findParentFeature2 be (m + 1) id V depth = ⟨.notFound, V, []⟩ by
        simp only [findParentFeature2]
        rw [if_pos (by simpa using hg)]]
      exact ⟨coreInv_triv V _, by simp⟩
    · push_neg at hg
      obtain ⟨hmem, hdep, hsize, hval⟩ := hg
      have hlen : V.length ≤ MAX_VISITED_ITEMS := by omega
      have hcond : ¬ ((id ∈ V) ∨ depth > MAX_RECURSION_DEPTH ∨
          V.length > MAX_VISITED_ITEMS ∨ ¬ isValidWorkItemId id = true) := by
        push_neg
        exact ⟨hmem, hdep, hsize, hval⟩
      cases hbe : be id with
      | notFound =>
        rw [show findParentFeature2 be (m + 1) id V depth = ⟨.notFound, id :: V, [id]⟩ by
          simp only [findParentFeature2]
          rw [if_neg (by simpa using hcond)]
          simp [hbe]]
        exact ⟨coreInv_single V _ id hmem hlen, by simp⟩
      | rateLimited =>
        rw [show findParentFeature2 be (m + 1) id V depth = ⟨.notFound, id :: V, [id]⟩ by
          simp only [findParentFeature2]
          rw [if_neg (by simpa using hcond)]
          simp [hbe]]
        exact ⟨coreInv_single V _ id hmem hlen, by simp⟩
      | remoteError =>
        rw [show findParentFeature2 be (m + 1) id V depth = ⟨.notFound, id :: V, [id]⟩ by
          simp only [findParentFeature2]
          rw [if_neg (by simpa using hcond)]
          simp [hbe]]
        exact ⟨coreInv_single V _ id hmem hlen, by simp⟩
      | authError =>
        rw [show findParentFeature2 be (m + 1) id V depth = ⟨.notFound, id :: V, [id]⟩ by
          simp only [findParentFeature2]
          rw [if_neg (by simpa using hcond)]
          simp [hbe]]
        exact ⟨coreInv_single V _ id hmem hlen, by simp⟩
      | ok item =>
        by_cases hft : item.workItemType = "Feature" ∨ item.workItemType = "Epic"
        · rw [show findParentFeature2 be (m + 1) id V depth = ⟨.found item, id :: V, [id]⟩ by
            simp only [findParentFeature2]
            rw [if_neg (by simpa using hcond)]
            simp [hbe, hft]]
          exact ⟨coreInv_single V _ id hmem hlen, by simp⟩
        · have hstep : findParentFeature2 be (m + 1) id V depth =
              (fun lr => (⟨lr.outcome, lr.visited, id :: lr.fetched⟩ : WalkResult))
                (tryParents2
                  (fun pid vis => findParentFeature2 be m pid vis (depth + 1))
                  (item.relations.filter (fun r => r.rel = hierarchyReverse))
                  (id :: V)) := by
            simp only [findParentFeature2]
            rw [if_neg (by simpa using hcond)]
            simp [hbe, hft]
          rw [hstep]
          have hloop := tryParents2_inv
            (fun pid vis => findParentFeature2 be m pid vis (depth + 1))
            (fun pid W => ih pid W (depth + 1))
            (item.relations.filter (fun r => r.rel = hierarchyReverse)) (id :: V)
          exact ⟨coreInv_cons V _ id _ hmem hlen hloop.1, hloop.2⟩

theorem tryParents1_congr (recurA recurB : Nat → List Nat → WalkResult)
    (h : ∀ pid W, recurA pid W = recurB pid W) :
    ∀ (cands : List Relation) (V : List Nat),
      tryParents1 recurA cands V = tryParents1 recurB cands V := by
  intro cands
  induction cands with
  | nil => intro V; rfl
  | cons r rest ih =>
    intro V
    cases hp : parseParentId r.url with
    | none => simp only [tryParents1, hp]; exact ih V
    | some pid =>
      by_cases hv : isValidWorkItemId pid = true
      · simp only [tryParents1, hp, hv, if_true, h pid V]
        rcases hrb : recurB pid V with ⟨o, vis, fs⟩
        cases o <;> simp [ih vis]
      · simp only [tryParents1, hp]
        rw [if_neg (by simpa using hv), if_neg (by simpa using hv)]
        exact ih V

theorem tryParents2_congr (recurA recurB : Nat → List Nat → WalkResult)
    (h : ∀ pid W, recurA pid W = recurB pid W) :
    ∀ (cands : List Relation) (V : List Nat),
      tryParents2 recurA cands V = tryParents2 recurB cands V := by
  intro cands
  induction cands with
  | nil => intro V; rfl
  | cons r rest ih =>
    intro V
    cases hp : parseParentId r.url with
    | none => simp only [tryParents2, hp]; exact ih V
    | some pid =>
      simp only [tryParents2, hp, h pid V]
      rcases hrb : recurB pid V with ⟨o, vis, fs⟩
      cases o <;> simp [ih vis]

theorem findParentFeature1_fuel_step (be : Backend) :
    ∀ (fuel depth id : Nat) (V : List Nat),
      MAX_RECURSION_DEPTH + 2 - depth ≤ fuel → 1 ≤ fuel →
      findParentFeature1 be fuel id V depth =
        findParentFeature1 be (fuel + 1) id V depth := by
  intro fuel
  induction fuel with
  | zero => intro depth id V _ hf1; omega
  | succ m ih =>
    intro depth id V hfd _
    have hM : MAX_RECURSION_DEPTH = 3 := rfl
    by_cases h1 : id ∈ V
    · simp [findParentFeature1, h1]
    by_cases h2 : depth > MAX_RECURSION_DEPTH
    · simp [findParentFeature1, h1, h2]
    by_cases h3 : V.length > MAX_VISITED_ITEMS
    · simp [findParentFeature1, h1, h2, h3]
    by_cases h4 : isValidWorkItemId id = true
    case neg => simp [findParentFeature1, h1, h2, h3, h4]
    case pos =>
      have hdep : depth ≤ 3 := by omega
      have hrec : ∀ pid W, findParentFeature1 be m pid W (depth + 1) =
          findParentFeature1 be (m + 1) pid W (depth + 1) := by
        intro pid W
        exact ih (depth + 1) pid W (by omega) (by omega)
      cases hbe : be id with
      | notFound => simp [findParentFeature1, h1, h2, h3, h4, hbe]
      | rateLimited => simp [findParentFeature1, h1, h2, h3, h4, hbe]
      | remoteError => simp [findParentFeature1, h1, h2, h3, h4, hbe]
      | authError => simp [findParentFeature1, h1, h2, h3, h4, hbe]
      | ok item =>
        by_cases hft : item.workItemType = "Feature" ∨ item.workItemType = "Epic"
        · simp [findParentFeature1, h1, h2, h3, h4, hbe, hft]
        · have hL : findParentFeature1 be (m + 1) id V depth =
              (fun lr => (⟨lr.outcome, lr.visited, id :: lr.fetched⟩ : WalkResult))
                (tryParents1
                  (fun pid vis => findParentFeature1 be m pid vis (depth + 1))
                  ((item.relations.filter (fun r => r.rel = hierarchyReverse)).take
                    MAX_PARENT_RELATIONS) (id :: V)) := by
            simp [findParentFeature1, h1, h2, h3, h4, hbe, hft]
          have hR : findParentFeature1 be (m + 1 + 1) id V depth =
              (fun lr => (⟨lr.outcome, lr.visited, id :: lr.fetched⟩ : WalkResult))
                (tryParents1
                  (fun pid vis => findParentFeature1 be (m + 1) pid vis (depth + 1))
                  ((item.relations.filter (fun r => r.rel = hierarchyReverse)).take
                    MAX_PARENT_RELATIONS) (id :: V)) := by
            simp [findParentFeature1, h1, h2, h3, h4, hbe, hft]
          rw [hL, hR, tryParents1_congr _ _ hrec]

theorem findParentFeature2_fuel_step (be : Backend) :
    ∀ (fuel depth id : Nat) (V : List Nat),
      MAX_RECURSION_DEPTH + 2 - depth ≤ fuel → 1 ≤ fuel →
      findParentFeature2 be fuel id V depth =
        findParentFeature2 be (fuel + 1) id V depth := by
  intro fuel
  induction fuel with
  | zero => intro depth id V _ hf1; omega
  | succ m ih =>
    intro depth id V hfd _
    have hM : MAX_RECURSION_DEPTH = 3 := rfl
    by_cases hg : id ∈ V ∨ depth > MAX_RECURSION_DEPTH ∨
        V.length > MAX_VISITED_ITEMS ∨ ¬ isValidWorkItemId id = true
    · simp only [findParentFeature2]
      rw [if_pos (by simpa using hg), if_pos (by simpa using hg)]
    · have hdep : depth ≤ 3 := by
        rcases not_or.mp hg with ⟨-, hrest⟩
        rcases not_or.mp hrest with ⟨hd, -⟩
        omega
      have hrec : ∀ pid W, findParentFeature2 be m pid W (depth + 1) =
          findParentFeature2 be (m + 1) pid W (depth + 1) := by
        intro pid W
        exact ih (depth + 1) pid W (by omega) (by omega)
      cases hbe : be id with
      | notFound =>
        simp only [findParentFeature2]
        rw [if_neg (by simpa using hg), if_neg (by simpa using hg)]
        simp [hbe]
      | rateLimited =>
        simp only [findParentFeature2]
        rw [if_neg (by simpa using hg), if_neg (by simpa using hg)]
        simp [hbe]
      | remoteError =>
        simp only [findParentFeature2]
        rw [if_neg (by simpa using hg), if_neg (by simpa using hg)]
        simp [hbe]
      | authError =>
        simp only [findParentFeature2]
        rw [if_neg (by simpa using hg), if_neg (by simpa using hg)]
        simp [hbe]
      | ok item =>
        by_cases hft : item.workItemType = "Feature" ∨ item.workItemType = "Epic"
        · simp only [findParentFeature2]
          rw [if_neg (by simpa using hg), if_neg (by simpa using hg)]
          simp [hbe, hft]
        · have hL : findParentFeature2 be (m + 1) id V depth =
              (fun lr => (⟨lr.outcome, lr.visited, id :: lr.fetched⟩ : WalkResult))
                (tryParents2
                  (fun pid vis => findParentFeature2 be m pid vis (depth + 1))
                  (item.relations.filter (fun r => r.rel = hierarchyReverse))
                  (id :: V)) := by
            simp only [findParentFeature2]
            rw [if_neg (by simpa using hg)]
            simp [hbe, hft]
          have hR : findParentFeature2 be (m + 1 + 1) id V depth =
              (fun lr => (⟨lr.outcome, lr.visited, id :: lr.fetched⟩ : WalkResult))
                (tryParents2
                  (fun pid vis => findParentFeature2 be (m + 1) pid vis (depth + 1))
                  (item.relations.filter (fun r => r.rel = hierarchyReverse))
                  (id :: V)) := by
            simp only [findParentFeature2]
            rw [if_neg (by simpa using hg)]
            simp [hbe, hft]
          rw [hL, hR, tryParents2_congr _ _ hrec]

theorem findParentFeature1_fuel_add (be : Backend) :
    ∀ (k fuel depth id : Nat) (V : List Nat),
      MAX_RECURSION_DEPTH + 2 - depth ≤ fuel → 1 ≤ fuel →
      findParentFeature1 be fuel id V depth =
        findParentFeature1 be (fuel + k) id V depth := by
  intro k
  induction k with
  | zero => intro fuel depth id V _ _; rfl
  | succ n ih =>
    intro fuel depth id V hfd hf1
    rw [ih fuel depth id V hfd hf1, show fuel + (n + 1) = (fuel + n) + 1 by omega]
    exact findParentFeature1_fuel_step be (fuel + n) depth id V (by omega) (by omega)

theorem findParentFeature2_fuel_add (be : Backend) :
    ∀ (k fuel depth id : Nat) (V : List Nat),
      MAX_RECURSION_DEPTH + 2 - depth ≤ fuel → 1 ≤ fuel →
      findParentFeature2 be fuel id V depth =
        findParentFeature2 be (fuel + k) id V depth := by
  intro k
  induction k with
  | zero => intro fuel depth id V _ _; rfl
  | succ n ih =>
    intro fuel depth id V hfd hf1
    rw [ih fuel depth id V hfd hf1, show fuel + (n + 1) = (fuel + n) + 1 by omega]
    exact findParentFeature2_fuel_step be (fuel + n) depth id V (by omega) (by omega)

theorem findParentFeature1_fuel_ge (be : Backend) (fuel id : Nat)
    (hf : enoughFuel ≤ fuel) :
    findParentFeature1 be fuel id [] 0 = resolveRootAncestor1 be id := by
  have h := findParentFeature1_fuel_add be (fuel - enoughFuel) enoughFuel 0 id []
    (by simp [enoughFuel]) (by simp [enoughFuel, MAX_RECURSION_DEPTH])
  rw [show enoughFuel + (fuel - enoughFuel) = fuel by omega] at h
  exact h.symm

theorem findParentFeature2_fuel_ge (be : Backend) (fuel id : Nat)
    (hf : enoughFuel ≤ fuel) :
    findParentFeature2 be fuel id [] 0 = resolveRootAncestor2 be id := by
  have h := findParentFeature2_fuel_add be (fuel - enoughFuel) enoughFuel 0 id []
    (by simp [enoughFuel]) (by simp [enoughFuel, MAX_RECURSION_DEPTH])
  rw [show enoughFuel + (fuel - enoughFuel) = fuel by omega] at h
  exact h.symm

theorem findParentFeature1_cap (be : Backend) (fuel id : Nat) (V : List Nat)
    (depth : Nat) (hV : V.length > MAX_VISITED_ITEMS) :
    findParentFeature1 be fuel id V depth = ⟨.notFound, V, []⟩ := by
  cases fuel with
  | zero => rfl
  | succ m =>
    by_cases h1 : id ∈ V
    · simp [findParentFeature1, h1]
    by_cases h2 : depth > MAX_RECURSION_DEPTH
    · simp [findParentFeature1, h1, h2]
    · simp [findParentFeature1, h1, h2, hV]

theorem findParentFeature2_cap (be : Backend) (fuel id : Nat) (V : List Nat)
    (depth : Nat) (hV : V.length > MAX_VISITED_ITEMS) :
    findParentFeature2 be fuel id V depth = ⟨.notFound, V, []⟩ := by
  cases fuel with
  | zero => rfl
  | succ m =>
    simp only [findParentFeature2]
    rw [if_pos (by simp [hV])]

theorem parseParentId_sound (url : String) (n : Nat)
    (h : parseParentId url = some n) :
    ∃ t ds, url.data = t ++ ("workItems/".data) ++ ds ∧ ds ≠ [] ∧
      (∀ c ∈ ds, c.isDigit = true) ∧ n = digitsToNat ds := by
  unfold parseParentId at h
  set ds := (url.data.reverse.takeWhile (fun c => c.isDigit)).reverse with hds
  by_cases he : ds.isEmpty = true
  · rw [if_pos he] at h
    exact absurd h (by simp)
  · rw [if_neg he] at h
    by_cases hs : ("workItems/".data).isSuffixOf
        (url.data.take (url.data.length - ds.length)) = true
    · rw [if_pos hs] at h
      have hn : n = digitsToNat ds := (Option.some.inj h).symm
      have hsuf : ds <:+ url.data := by
        rw [hds]
        have h0 := List.takeWhile_prefix (l := url.data.reverse)
          (p := fun c => c.isDigit)
        have h1 := List.reverse_suffix.mpr h0
        rwa [List.reverse_reverse] at h1
      obtain ⟨t0, ht0⟩ := hsuf
      have hlen : url.data.length - ds.length = t0.length := by
        rw [← ht0]
        simp
      rw [hlen, ← ht0, List.take_left t0] at hs
      obtain ⟨t1, ht1⟩ := List.isSuffixOf_iff_suffix.mp hs
      refine ⟨t1, ds, ?_, ?_, ?_, hn⟩
      · rw [← ht0, ← ht1, List.append_assoc]
      · simpa [List.isEmpty_iff] using he
      · intro c hc
        rw [hds] at hc
        exact List.mem_takeWhile_imp (List.mem_reverse.mp hc)
    · rw [if_neg hs] at h
      exact absurd h (by simp)

theorem truncParents_type (item : WorkItem) :
    (truncParents item).workItemType = item.workItemType := rfl

theorem truncParents_cands (item : WorkItem) :
    ((truncParents item).relations.filter
        (fun r => r.rel = hierarchyReverse)).take MAX_PARENT_RELATIONS =
      (item.relations.filter
        (fun r => r.rel = hierarchyReverse)).take MAX_PARENT_RELATIONS := by
  have hall : ∀ r ∈ (item.relations.filter
      (fun r => r.rel = hierarchyReverse)).take MAX_PARENT_RELATIONS,
      (fun r => decide (r.rel = hierarchyReverse)) r = true := by
    intro r hr
    have hr2 := List.take_subset _ _ hr
    simpa using (List.mem_filter.mp hr2).2
  simp only [truncParents]
  rw [List.filter_eq_self.mpr hall, List.take_take]
  simp

theorem truncOutcome_notFound : truncOutcome Outcome.notFound = Outcome.notFound := rfl

theorem tryParents1_trunc (recurT recurO : Nat → List Nat → WalkResult)
    (h : ∀ pid W, recurT pid W =
      ⟨truncOutcome (recurO pid W).outcome, (recurO pid W).visited,
        (recurO pid W).fetched⟩) :
    ∀ (cands : List Relation) (V : List Nat),
      tryParents1 recurT cands V =
        ⟨truncOutcome (tryParents1 recurO cands V).outcome,
          (tryParents1 recurO cands V).visited,
          (tryParents1 recurO cands V).fetched⟩ := by
  intro cands
  induction cands with
  | nil => intro V; simp [tryParents1, truncOutcome]
  | cons r rest ih =>
    intro V
    cases hp : parseParentId r.url with
    | none =>
      simp only [tryParents1, hp]
      exact ih V
    | some pid =>
      by_cases hv : isValidWorkItemId pid = true
      · simp only [tryParents1, hp, hv, if_true]
        rcases hro : recurO pid V with ⟨o, vis, fs⟩
        have hT := h pid V
        rw [hro] at hT
        rw [hT]
        cases o with
        | found item => simp [truncOutcome]
        | fatalAuth => simp [truncOutcome]
        | notFound => simp [truncOutcome, ih vis]
      · simp only [tryParents1, hp]
        rw [if_neg (by simpa using hv), if_neg (by simpa using hv)]
        exact ih V

theorem findParentFeature1_trunc (be : Backend) :
    ∀ (fuel id : Nat) (V : List Nat) (depth : Nat),
      findParentFeature1 (truncBackend be) fuel id V depth =
        ⟨truncOutcome (findParentFeature1 be fuel id V depth).outcome,
          (findParentFeature1 be fuel id V depth).visited,
          (findParentFeature1 be fuel id V depth).fetched⟩ := by
  intro fuel
  induction fuel with
  | zero => intro id V depth; simp [findParentFeature1, truncOutcome]
  | succ m ih =>
    intro id V depth
    by_cases h1 : id ∈ V
    · simp [findParentFeature1, h1, truncOutcome]
    by_cases h2 : depth > MAX_RECURSION_DEPTH
    · simp [findParentFeature1, h1, h2, truncOutcome]
    by_cases h3 : V.length > MAX_VISITED_ITEMS
    · simp [findParentFeature1, h1, h2, h3, truncOutcome]
    by_cases h4 : isValidWorkItemId id = true
    case neg => simp [findParentFeature1, h1, h2, h3, h4, truncOutcome]
    case pos =>
      cases hbe : be id with
      | notFound =>
        have hbt : truncBackend be id = .notFound := by simp [truncBackend, hbe]
        simp [findParentFeature1, h1, h2, h3, h4, hbe, hbt, truncOutcome]
      | rateLimited =>
        have hbt : truncBackend be id = .rateLimited := by simp [truncBackend, hbe]
        simp [findParentFeature1, h1, h2, h3, h4, hbe, hbt, truncOutcome]
      | remoteError =>
        have hbt : truncBackend be id = .remoteError := by simp [truncBackend, hbe]
        simp [findParentFeature1, h1, h2, h3, h4, hbe, hbt, truncOutcome]
      | authError =>
        have hbt : truncBackend be id = .authError := by simp [truncBackend, hbe]
        simp [findParentFeature1, h1, h2, h3, h4, hbe, hbt, truncOutcome]
      | ok item =>
        have hbt : truncBackend be id = .ok (truncParents item) := by
          simp [truncBackend, hbe]
        by_cases hft : item.workItemType = "Feature" ∨ item.workItemType = "Epic"
        · have hftT : (truncParents item).workItemType = "Feature" ∨
              (truncParents item).workItemType = "Epic" := by
            rw [truncParents_type]
            exact hft
          rw [show findParentFeature1 (truncBackend be) (m + 1) id V depth =
              ⟨.found (truncParents item), id :: V, [id]⟩ by
            simp [findParentFeature1, h1, h2, h3, h4, hbt, hftT]]
          rw [show findParentFeature1 be (m + 1) id V depth =
              ⟨.found item, id :: V, [id]⟩ by
            simp [findParentFeature1, h1, h2, h3, h4, hbe, hft]]
          simp [truncOutcome]
        · have hftT : ¬ ((truncParents item).workItemType = "Feature" ∨
              (truncParents item).workItemType = "Epic") := by
            rw [truncParents_type]
            exact hft
          have hL : findParentFeature1 (truncBackend be) (m + 1) id V depth =
              (fun lr => (⟨lr.outcome, lr.visited, id :: lr.fetched⟩ : WalkResult))
                (tryParents1
                  (fun pid vis =>
                    findParentFeature1 (truncBackend be) m pid vis (depth + 1))
                  ((item.relations.filter (fun r => r.rel = hierarchyReverse)).take
                    MAX_PARENT_RELATIONS) (id :: V)) := by
            rw [show findParentFeature1 (truncBackend be) (m + 1) id V depth =
                (fun lr => (⟨lr.outcome, lr.visited, id :: lr.fetched⟩ : WalkResult))
                  (tryParents1
                    (fun pid vis =>
                      findParentFeature1 (truncBackend be) m pid vis (depth + 1))
                    (((truncParents item).relations.filter
                      (fun r => r.rel = hierarchyReverse)).take
                      MAX_PARENT_RELATIONS) (id :: V)) by
              simp [findParentFeature1, h1, h2, h3, h4, hbt, hftT]]
            rw [truncParents_cands]
          have hR : findParentFeature1 be (m + 1) id V depth =
              (fun lr => (⟨lr.outcome, lr.visited, id :: lr.fetched⟩ : WalkResult))
                (tryParents1
                  (fun pid vis => findParentFeature1 be m pid vis (depth + 1))
                  ((item.relations.filter (fun r => r.rel = hierarchyReverse)).take
                    MAX_PARENT_RELATIONS) (id :: V)) := by
            simp [findParentFeature1, h1, h2, h3, h4, hbe, hft]
          rw [hL, hR, tryParents1_trunc
            (fun pid vis => findParentFeature1 (truncBackend be) m pid vis (depth + 1))
            (fun pid vis => findParentFeature1 be m pid vis (depth + 1))
            (fun pid W => ih pid W (depth + 1))]

/-- C1: for every parent-link graph supplied by the backend — cycles,
dangling ids, arbitrary branching included — the hierarchy resolver
terminates: in the fuel embedding, once the fuel covers the depth guard
(MAX_RECURSION_DEPTH + 2 for a fresh invocation), the result of both
variants of findParentFeature is independent of the fuel, so no backend
can drive the recursion deeper than the guards allow. -/
theorem C1_resolver_terminates (be : Backend) (id f₁ f₂ : Nat)
    (h₁ : enoughFuel ≤ f₁) (h₂ : enoughFuel ≤ f₂) :
    findParentFeature1 be f₁ id [] 0 = findParentFeature1 be f₂ id [] 0 ∧
    findParentFeature2 be f₁ id [] 0 = findParentFeature2 be f₂ id [] 0 :=
  ⟨by rw [findParentFeature1_fuel_ge be f₁ id h₁,
      findParentFeature1_fuel_ge be f₂ id h₂],
   by rw [findParentFeature2_fuel_ge be f₁ id h₁,
      findParentFeature2_fuel_ge be f₂ id h₂]⟩

/-- Witness for C1 on the two-node cycle backend with fuels 5 and 9. -/
theorem C1_resolver_terminates_witness :
    enoughFuel ≤ 5 ∧ enoughFuel ≤ 9 ∧
    (findParentFeature1 beCycle 5 1 [] 0 = findParentFeature1 beCycle 9 1 [] 0 ∧
     findParentFeature2 beCycle 5 1 [] 0 = findParentFeature2 beCycle 9 1 [] 0) :=
  ⟨by decide, by decide, C1_resolver_terminates beCycle 1 5 9 (by decide) (by decide)⟩

/-- C2: within a single resolver invocation no id is fetched twice (the
fetch trace has no duplicates, in both variants); the final visited set is
exactly the fetched ids stacked on the initial one, so an id is added the
moment its fetch begins and the set only grows; and an id already visited
is answered NotFound for that branch with no fetch at all. -/
theorem C2_no_refetch (be : Backend) (fuel id : Nat) (V : List Nat)
    (depth : Nat) :
    (resolveRootAncestor1 be id).fetched.Nodup ∧
    (resolveRootAncestor2 be id).fetched.Nodup ∧
    (findParentFeature1 be fuel id V depth).visited =
      (findParentFeature1 be fuel id V depth).fetched.reverse ++ V ∧
    (findParentFeature2 be fuel id V depth).visited =
      (findParentFeature2 be fuel id V depth).fetched.reverse ++ V ∧
    (id ∈ V → findParentFeature1 be fuel id V depth = ⟨.notFound, V, []⟩) ∧
    (id ∈ V → findParentFeature2 be fuel id V depth = ⟨.notFound, V, []⟩) := by
  refine ⟨(findParentFeature1_inv be enoughFuel id [] 0).1.fetched_nodup,
    (findParentFeature2_inv be enoughFuel id [] 0).1.fetched_nodup,
    (findParentFeature1_inv be fuel id V depth).1.visited_eq,
    (findParentFeature2_inv be fuel id V depth).1.visited_eq, ?_, ?_⟩
  · intro h
    cases fuel with
    | zero => rfl
    | succ m => simp [findParentFeature1, h]
  · intro h
    cases fuel with
    | zero => rfl
    | succ m =>
      simp only [findParentFeature2]
      rw [if_pos (by simp [h])]

/-- Witness for C2: the two-node cycle 1 → 2 → 1 resolves to NotFound with
each node fetched exactly once, and a start id already in the visited set is
answered NotFound without any fetch. -/
theorem C2_no_refetch_witness :
    (resolveRootAncestor1 beCycle 1).fetched.Nodup ∧
    (1 ∈ [1] ∧ findParentFeature1 beCycle 5 1 [1] 0 = ⟨.notFound, [1], []⟩) ∧
    (resolveRootAncestor1 beCycle 1).outcome = Outcome.notFound ∧
    (resolveRootAncestor1 beCycle 1).fetched = [1, 2] ∧
    (resolveRootAncestor2 beCycle 1).fetched = [1, 2] :=
  ⟨(C2_no_refetch beCycle 5 1 [] 0).1,
   ⟨by decide, (C2_no_refetch beCycle 5 1 [1] 0).2.2.2.2.1 (by decide)⟩,
   by decide, by decide, by decide⟩

/-- C3 counterexample: when the start item 100 is itself a Feature, both
variants of the resolver return the item itself, not NotFound. -/
theorem C3_self_match_counterexample :
    (resolveRootAncestor1 beSelfFeature 100).outcome ≠ Outcome.notFound ∧
    (resolveRootAncestor2 beSelfFeature 100).outcome ≠ Outcome.notFound ∧
    resolveRootAncestor1 beSelfFeature 100 =
      ⟨.found ⟨100, "Feature", []⟩, [100], [100]⟩ ∧
    beSelfFeature 100 = .ok ⟨100, "Feature", []⟩ := by decide

/-- C3 as amended: for a valid start id whose item's type is already in the
root-type set, find_parent_feature returns the start item itself as the
result — the self case is included, not excluded, in both variants. -/
theorem C3_self_match_amended (be : Backend) (id : Nat) (item : WorkItem)
    (hval : isValidWorkItemId id = true) (hbe : be id = .ok item)
    (hft : item.workItemType = "Feature" ∨ item.workItemType = "Epic") :
    resolveRootAncestor1 be id = ⟨.found item, [id], [id]⟩ ∧
    resolveRootAncestor2 be id = ⟨.found item, [id], [id]⟩ := by
  constructor
  · have h1 : resolveRootAncestor1 be id =
        findParentFeature1 be (4 + 1) id [] 0 := rfl
    rw [h1]
    simp [findParentFeature1, hval, hbe, hft, MAX_RECURSION_DEPTH,
      MAX_VISITED_ITEMS]
  · have h2 : resolveRootAncestor2 be id =
        findParentFeature2 be (4 + 1) id [] 0 := rfl
    rw [h2]
    simp only [findParentFeature2]
    rw [if_neg (by simp [hval, MAX_RECURSION_DEPTH, MAX_VISITED_ITEMS])]
    simp [hbe, hft]

/-- Witness for the amended C3 at the concrete Feature item 100. -/
theorem C3_self_match_amended_witness :
    isValidWorkItemId 100 = true ∧
    beSelfFeature 100 = .ok ⟨100, "Feature", []⟩ ∧
    resolveRootAncestor1 beSelfFeature 100 =
      ⟨.found ⟨100, "Feature", []⟩, [100], [100]⟩ ∧
    resolveRootAncestor2 beSelfFeature 100 =
      ⟨.found ⟨100, "Feature", []⟩, [100], [100]⟩ :=
  ⟨by decide, by decide,
   (C3_self_match_amended beSelfFeature 100 ⟨100, "Feature", []⟩ (by decide)
     (by decide) (.inl rfl)).1,
   (C3_self_match_amended beSelfFeature 100 ⟨100, "Feature", []⟩ (by decide)
     (by decide) (.inl rfl)).2⟩

/-- C4: the claim says identity validation runs first and must succeed
before any work-item fetch.  The explicit-parameter tools do behave that
way, but the header-based get_work_item and find_parent_feature handlers
never invoke validateUser at all: they fetch the work item immediately.
This theorem evaluates both tool pipelines: with a failed identity the
explicit-parameter traces contain only the identity fetch, while the
header-based traces contain a work-item fetch and no identity fetch. -/
theorem C4_auth_precedence_evaluation :
    getWorkItemTool1 .authFailed 123 = [.identityFetch] ∧
    findParentFeatureTool1 .authFailed beAllMissing 123 = [.identityFetch] ∧
    getWorkItemTool1 .ok 123 = [.identityFetch, .workItemFetch 123] ∧
    ApiCall.workItemFetch 123 ∈ getWorkItemTool2 beAllMissing 123 ∧
    ApiCall.identityFetch ∉ getWorkItemTool2 beAllMissing 123 ∧
    ApiCall.workItemFetch 123 ∈ findParentFeatureTool2 beAllMissing 123 ∧
    ApiCall.identityFetch ∉ findParentFeatureTool2 beAllMissing 123 := by decide

/-- C5 as amended: in the explicit-parameter variant an authentication
failure (401) during the walk propagates immediately as a fatal failure of
the whole operation — the walk ends at that fetch and the outcome is the
propagated auth error, and conversely a non-auth outcome guarantees no
fetch was answered 401; in the header-based variant, however, every failing
fetch — 401 included — is absorbed into a branch-level null, so that
variant never propagates an auth failure. -/
theorem C5_auth_propagation (be : Backend) (fuel id : Nat) (V : List Nat)
    (depth : Nat) :
    ((∃ x ∈ (findParentFeature1 be fuel id V depth).fetched,
        be x = .authError) ↔
      (findParentFeature1 be fuel id V depth).outcome = .fatalAuth) ∧
    ((findParentFeature1 be fuel id V depth).outcome = .fatalAuth →
      ∃ pre x, (findParentFeature1 be fuel id V depth).fetched = pre ++ [x] ∧
        be x = .authError ∧ ∀ y ∈ pre, be y ≠ .authError) ∧
    (findParentFeature2 be fuel id V depth).outcome ≠ .fatalAuth := by
  have h1 := findParentFeature1_inv be fuel id V depth
  refine ⟨⟨?_, ?_⟩, h1.2.fatal_last, (findParentFeature2_inv be fuel id V depth).2⟩
  · rintro ⟨x, hx, hax⟩
    by_contra hne
    exact h1.2.no_auth hne x hx hax
  · intro hfa
    rcases h1.2.fatal_last hfa with ⟨pre, x, hsplit, hax, -⟩
    exact ⟨x, by rw [hsplit]; simp, hax⟩

/-- Witness for C5: on the backend where the walk from 1 reaches the
auth-rejected item 2, the explicit-parameter resolver propagates the fatal
auth outcome. -/
theorem C5_auth_propagation_witness :
    (resolveRootAncestor1 beAuthMidWalk 1).outcome = Outcome.fatalAuth ∧
    beAuthMidWalk 2 = FetchResult.authError ∧
    2 ∈ (resolveRootAncestor1 beAuthMidWalk 1).fetched :=
  ⟨(C5_auth_propagation beAuthMidWalk 5 1 [] 0).1.mp ⟨2, by decide, by decide⟩,
   by decide, by decide⟩

/-- C5 counterexample: in the header-based variant the very same mid-walk
401 is swallowed into NotFound — the auth-rejected item 2 is fetched and
the invocation still ends in NotFound rather than a propagated failure. -/
theorem C5_auth_swallowed_counterexample :
    (resolveRootAncestor2 beAuthMidWalk 1).outcome = Outcome.notFound ∧
    2 ∈ (resolveRootAncestor2 beAuthMidWalk 1).fetched ∧
    beAuthMidWalk 2 = FetchResult.authError := by decide

/-- C6: a 404 or 429 met while expanding a branch is absorbed into NotFound
for that branch only — the failing node is marked visited, the walk
continues with the remaining sibling candidates on the threaded state — and
a backend with no auth failures can never abort the whole operation, no
matter how many dangling links it contains. -/
theorem C6_branch_absorption (be : Backend) (fuel id : Nat) (V : List Nat)
    (depth : Nat) (recur : Nat → List Nat → WalkResult) (r : Relation)
    (rest : List Relation) (pid : Nat) (V' fs : List Nat) :
    ((be id = .notFound ∨ be id = .rateLimited) → id ∉ V →
      depth ≤ MAX_RECURSION_DEPTH → V.length ≤ MAX_VISITED_ITEMS →
      isValidWorkItemId id = true →
      findParentFeature1 be (fuel + 1) id V depth = ⟨.notFound, id :: V, [id]⟩) ∧
    (parseParentId r.url = some pid → isValidWorkItemId pid = true →
      recur pid V = ⟨.notFound, V', fs⟩ →
      tryParents1 recur (r :: rest) V =
        ⟨(tryParents1 recur rest V').outcome,
          (tryParents1 recur rest V').visited,
          fs ++ (tryParents1 recur rest V').fetched⟩) ∧
    ((∀ x, be x ≠ .authError) →
      (resolveRootAncestor1 be id).outcome ≠ .fatalAuth) := by
  refine ⟨?_, ?_, ?_⟩
  · intro hb hmem hdep hlen hval
    have hd : ¬ depth > MAX_RECURSION_DEPTH := by omega
    have hl : ¬ V.length > MAX_VISITED_ITEMS := by omega
    rcases hb with hb | hb <;> simp [findParentFeature1, hmem, hd, hl, hval, hb]
  · intro hp hv hr
    simp [tryParents1, hp, hv, hr]
  · intro hnone hfa
    rcases (findParentFeature1_inv be enoughFuel id [] 0).2.fatal_last hfa
      with ⟨pre, x, -, hax, -⟩
    exact hnone x hax

/-- Witness for C6 on the backend where item 1 has a dangling first parent
link to the missing item 2 and a second link to the Feature 3: the dangling
branch is absorbed, the walk continues and the operation succeeds. -/
theorem C6_branch_absorption_witness :
    (beDangling 2 = .notFound ∨ beDangling 2 = .rateLimited) ∧
    findParentFeature1 beDangling (3 + 1) 2 [1] 1 = ⟨.notFound, [2, 1], [2]⟩ ∧
    (resolveRootAncestor1 beDangling 1).outcome =
      Outcome.found ⟨3, "Feature", []⟩ ∧
    (resolveRootAncestor1 beDangling 1).fetched = [1, 2, 3] ∧
    (resolveRootAncestor1 beDangling 1).outcome ≠ Outcome.fatalAuth := by
  refine ⟨by decide, ?_, by decide, by decide, ?_⟩
  · exact (C6_branch_absorption beDangling 3 2 [1] 1
      (fun _ W => ⟨.notFound, W, []⟩) ⟨"", ""⟩ [] 0 [] []).1
      (by decide) (by decide) (by decide) (by decide) (by decide)
  · refine (C6_branch_absorption beDangling 3 1 [] 0
      (fun _ W => ⟨.notFound, W, []⟩) ⟨"", ""⟩ [] 0 [] []).2.2 ?_
    intro x
    unfold beDangling
    split_ifs <;> simp

/-- C7 as amended: the visited-size guard is a strict comparison
(`visited.size > MAX_VISITED_ITEMS`), so one expansion beyond the constant
still happens: per invocation the visited set is bounded by
MAX_VISITED_ITEMS + 1 = 11 entries — not 10 — and so at most 11 distinct
work items are fetched; hitting the cap yields NotFound for the branch,
never an error. -/
theorem C7_visited_cap (be : Backend) (fuel id : Nat) (V : List Nat)
    (depth : Nat) :
    (resolveRootAncestor1 be id).visited.length ≤ MAX_VISITED_ITEMS + 1 ∧
    (resolveRootAncestor1 be id).fetched.length ≤ MAX_VISITED_ITEMS + 1 ∧
    (V.length > MAX_VISITED_ITEMS →
      findParentFeature1 be fuel id V depth = ⟨.notFound, V, []⟩) := by
  have h := (findParentFeature1_inv be enoughFuel id [] 0).1
  have hb := h.visited_bound (by simp)
  have he := h.visited_eq
  have hlen : (findParentFeature1 be enoughFuel id [] 0).visited.length =
      (findParentFeature1 be enoughFuel id [] 0).fetched.length := by
    rw [he]
    simp
  refine ⟨hb, ?_, fun hV => findParentFeature1_cap be fuel id V depth hV⟩
  show (findParentFeature1 be enoughFuel id [] 0).fetched.length ≤
    MAX_VISITED_ITEMS + 1
  omega

/-- Witness for C7: the cap bounds hold on the wide backend, and a call
whose visited set already exceeds the constant returns NotFound without
fetching. -/
theorem C7_visited_cap_witness :
    (resolveRootAncestor1 beWide 1).visited.length ≤ MAX_VISITED_ITEMS + 1 ∧
    (List.range 12).length > MAX_VISITED_ITEMS ∧
    findParentFeature1 beWide 5 1 (List.range 12) 0 =
      ⟨.notFound, List.range 12, []⟩ :=
  ⟨(C7_visited_cap beWide 5 1 [] 0).1, by decide,
   (C7_visited_cap beWide 5 1 (List.range 12) 0).2.2 (by decide)⟩

/-- C7 counterexample: on the wide graph the explicit-parameter resolver
visits and fetches 11 distinct items in one invocation — the claimed bound
of 10 is exceeded, because the size guard is strict. -/
theorem C7_visited_cap_counterexample :
    (resolveRootAncestor1 beWide 1).visited.length = 11 ∧
    (resolveRootAncestor1 beWide 1).fetched.length = 11 ∧
    (resolveRootAncestor1 beWide 1).fetched.Nodup ∧
    MAX_VISITED_ITEMS = 10 := by decide

/-- C8 as amended: the per-node cap of MAX_PARENT_RELATIONS = 3 candidates
holds in the explicit-parameter variant: truncating every item's relation
list to its first 3 parent-kind relations changes nothing observable about
the walk — the same ids are fetched in the same order, the visited set is
identical, and the outcome agrees up to the same truncation of the returned
item.  (The header-based variant enforces no such cap; see the
counterexample.) -/
theorem C8_per_node_cap (be : Backend) (fuel id : Nat) (V : List Nat)
    (depth : Nat) :
    findParentFeature1 (truncBackend be) fuel id V depth =
      ⟨truncOutcome (findParentFeature1 be fuel id V depth).outcome,
        (findParentFeature1 be fuel id V depth).visited,
        (findParentFeature1 be fuel id V depth).fetched⟩ :=
  findParentFeature1_trunc be fuel id V depth

/-- C8 counterexample: item 1 carries four parent-kind relations whose
first three are dangling and whose fourth leads to the Feature 24.  The
explicit-parameter variant never examines the fourth candidate and gives
NotFound; the header-based variant recurses into it, fetches item 24 and
returns it — so its per-node candidate processing is uncapped. -/
theorem C8_per_node_cap_counterexample :
    beFourCands 1 = .ok ⟨1, "Task", [parRel 21, parRel 22, parRel 23, parRel 24]⟩ ∧
    24 ∉ (resolveRootAncestor1 beFourCands 1).fetched ∧
    (resolveRootAncestor1 beFourCands 1).outcome = Outcome.notFound ∧
    24 ∈ (resolveRootAncestor2 beFourCands 1).fetched ∧
    (resolveRootAncestor2 beFourCands 1).outcome =
      Outcome.found ⟨24, "Feature", []⟩ := by decide

/-- C9 as amended: the worker's fetch handler echoes every inbound request
header to the log verbatim, so any header value — the Personal Access Token
included — is written to the log in cleartext as part of its log line. -/
theorem C9_header_values_logged (headers : List (String × String))
    (k v : String) (h : (k, v) ∈ headers) :
    ("  " ++ k ++ ": " ++ v) ∈ logRequestHeaders headers :=
  List.mem_map_of_mem (fun kv => "  " ++ kv.1 ++ ": " ++ kv.2) h

/-- Witness for C9 at a concrete PAT-carrying header list. -/
theorem C9_header_values_logged_witness :
    ("x-azure-devops-pat", "topsecret") ∈
      [("x-azure-devops-pat", "topsecret")] ∧
    ("  " ++ "x-azure-devops-pat" ++ ": " ++ "topsecret") ∈
      logRequestHeaders [("x-azure-devops-pat", "topsecret")] :=
  ⟨by decide, C9_header_values_logged _ _ _ (by decide)⟩

/-- C9 counterexample: a request carrying the PAT header produces a log
line that contains the secret token in cleartext, refuting the claim that
header-supplied secrets are never logged. -/
theorem C9_pat_in_log_counterexample :
    ∃ line ∈ logRequestHeaders [("x-azure-devops-pat", "secret-pat-value")],
      ∃ a b : String, line = a ++ ("secret-pat-value" ++ b) := by
  refine ⟨"  x-azure-devops-pat: secret-pat-value", by decide,
    "  x-azure-devops-pat: ", "", by decide⟩

/-- C10: a parent-kind relation whose URL the regex does not match is
skipped silently — the loop result on it is exactly the loop result on the
remaining candidates, with the same threaded state and no fetch — in both
variants; and whenever the parse does succeed the URL really ends in
"workItems/" followed by a nonempty digit run whose value is the parsed
id. -/
theorem C10_unparseable_skipped (recur : Nat → List Nat → WalkResult)
    (r : Relation) (rest : List Relation) (V : List Nat) (url : String)
    (n : Nat) :
    (parseParentId r.url = none →
      tryParents1 recur (r :: rest) V = tryParents1 recur rest V ∧
      tryParents2 recur (r :: rest) V = tryParents2 recur rest V) ∧
    (parseParentId url = some n →
      ∃ t ds, url.data = t ++ ("workItems/".data) ++ ds ∧ ds ≠ [] ∧
        (∀ c ∈ ds, c.isDigit = true) ∧ n = digitsToNat ds) := by
  refine ⟨?_, parseParentId_sound url n⟩
  intro hp
  constructor
  · simp [tryParents1, hp]
  · simp [tryParents2, hp]

/-- Witness for C10: a parent-kind relation with an attachment URL is
skipped by both loops, and the canonical URL "workItems/7" parses to 7 with
the promised decomposition. -/
theorem C10_unparseable_skipped_witness :
    parseParentId "attachment/xyz" = none ∧
    tryParents1 (fun _ W => ⟨.notFound, W, []⟩)
        [⟨hierarchyReverse, "attachment/xyz"⟩] [5] =
      tryParents1 (fun _ W => ⟨.notFound, W, []⟩) [] [5] ∧
    parseParentId "workItems/7" = some 7 ∧
    (∃ t ds, ("workItems/7" : String).data = t ++ ("workItems/".data) ++ ds ∧
      ds ≠ [] ∧ (∀ c ∈ ds, c.isDigit = true) ∧ 7 = digitsToNat ds) :=
  ⟨by decide,
   ((C10_unparseable_skipped (fun _ W => ⟨.notFound, W, []⟩)
      ⟨hierarchyReverse, "attachment/xyz"⟩ [] [5] "workItems/7" 7).1
      (by decide)).1,
   by decide,
   (C10_unparseable_skipped (fun _ W => ⟨.notFound, W, []⟩)
      ⟨hierarchyReverse, "attachment/xyz"⟩ [] [5] "workItems/7" 7).2
      (by decide)⟩
